import Mathlib

/-!
Shallow embedding of the PRimate bot's PR-tracking core (src/slackListener.js,
src/prReminders.js, src/statistics.js, src/storage.js).

JavaScript `Map`s are modelled as association lists with JS `Map` semantics
(`set` replaces in place or appends, `delete` removes the entry, insertion
order preserved).  JS strings are Lean `String`s; timestamps that the code
only stores and compares are `String`s, millisecond epoch times used in
arithmetic are `Int`s.  `null`-able fields are `Option`s.  JS truthiness of a
string field (`null`/`""` falsy) is modelled explicitly.
-/

/-- JS whitespace test used by the regex classes in slackListener.js
(approximated by the four common ASCII whitespace characters). -/
def isWsChar (c : Char) : Bool := c = ' ' || c = '\t' || c = '\n' || c = '\r'

/-- JS `String.prototype.includes` on char lists: `needle` occurs somewhere in
`hay`. -/
def hasSub : List Char → List Char → Bool
  | [], needle => needle.isPrefixOf []
  | c :: t, needle => needle.isPrefixOf (c :: t) || hasSub t needle

/-- JS `url.includes(sub)` for strings. -/
def strContains (s sub : String) : Bool := hasSub s.data sub.data

/-- Characters allowed in the body of a URL by the regex
`/(https?:\/\/[^\s>]+)/g` in `extractPRUrl`. -/
def urlBodyChar (c : Char) : Bool := !(isWsChar c || c = '>')

/-- Match the `https?:\/\/` part of the URL regex at the head of the input. -/
def urlScheme (l : List Char) : Option (List Char × List Char) :=
  if ("https://".data).isPrefixOf l then some ("https://".data, l.drop 8)
  else if ("http://".data).isPrefixOf l then some ("http://".data, l.drop 7)
  else none

/-- Left-to-right non-overlapping scan of `text.match(/(https?:\/\/[^\s>]+)/g)`.
`fuel` bounds the scan (the caller passes the text length, which suffices
because every step consumes at least one character). -/
def findUrlsF : Nat → List Char → List (List Char)
  | 0, _ => []
  | fuel + 1, l =>
    match l with
    | [] => []
    | c :: t =>
      match urlScheme (c :: t) with
      | none => findUrlsF fuel t
      | some (sch, rest) =>
        let body := rest.takeWhile urlBodyChar
        if body.isEmpty then findUrlsF fuel t
        else (sch ++ body) :: findUrlsF fuel (rest.dropWhile urlBodyChar)

/-- All URLs found in a message text (slackListener.js line 41). -/
def findUrls (text : String) : List String :=
  (findUrlsF text.data.length text.data).map String.mk

/-- Character class `[A-Z0-9]` of the mention regex `/<@([A-Z0-9]+)>/g`. -/
def mentionChar (c : Char) : Bool := ('A' ≤ c && c ≤ 'Z') || ('0' ≤ c && c ≤ '9')

/-- Left-to-right scan of `text.matchAll(/<@([A-Z0-9]+)>/g)`, returning the
captured user IDs. -/
def scanMentionsF : Nat → List Char → List String
  | 0, _ => []
  | fuel + 1, l =>
    match l with
    | [] => []
    | c :: t =>
      if ("<@".data).isPrefixOf (c :: t) then
        let rest := (c :: t).drop 2
        let idPart := rest.takeWhile mentionChar
        match rest.dropWhile mentionChar with
        | '>' :: r3 =>
          if idPart.isEmpty then scanMentionsF fuel t
          else String.mk idPart :: scanMentionsF fuel r3
        | _ => scanMentionsF fuel t
      else scanMentionsF fuel t

/-- All `<@USERID>` mentions in a message text, in order. -/
def scanMentions (text : String) : List String :=
  scanMentionsF text.data.length text.data

/-- `[...new Set(list)]`: deduplicate keeping first occurrences (`seen` is the
set built so far while iterating). -/
def uniqueKeepFirstAux (seen : List String) : List String → List String
  | [] => []
  | x :: t =>
    if seen.contains x then uniqueKeepFirstAux seen t
    else x :: uniqueKeepFirstAux (seen ++ [x]) t

def uniqueKeepFirst (l : List String) : List String := uniqueKeepFirstAux [] l

/-- `extractReviewerIds` (slackListener.js lines 83-94): mentioned user IDs,
minus the bot's own ID, de-duplicated. -/
def extractReviewerIds (botUserId text : String) : List String :=
  uniqueKeepFirst ((scanMentions text).filter (fun id => id != botUserId))

/-- JS `Array.prototype.slice(b, e)` with JS index clamping (negative indices
count from the end). -/
def jsSlice {α : Type} (l : List α) (b e : Int) : List α :=
  let n : Int := l.length
  let clampIdx : Int → Nat := fun i => (if i < 0 then max (n + i) 0 else min i n).toNat
  (l.take (clampIdx e)).drop (clampIdx b)

def digitsToNat (ds : List Char) : Nat := ds.foldl (fun a c => a * 10 + (c.toNat - 48)) 0

/-- JS `parseInt(s, 10)`: skip whitespace, optional sign, leading digits;
`none` models `NaN`. -/
def jsParseInt (s : String) : Option Int :=
  match s.data.dropWhile isWsChar with
  | '-' :: t =>
    let ds := t.takeWhile Char.isDigit
    if ds.isEmpty then none else some (-(digitsToNat ds : Int))
  | '+' :: t =>
    let ds := t.takeWhile Char.isDigit
    if ds.isEmpty then none else some (digitsToNat ds : Int)
  | t =>
    let ds := t.takeWhile Char.isDigit
    if ds.isEmpty then none else some (digitsToNat ds : Int)

/-- Result of `extractPRUrl`. -/
structure PRInfo where
  url : String
  workspace : String
  group : Option String
  projectName : String
  projectPath : String
  mrIid : Option Int
deriving DecidableEq

/-- JS `url.split("/")`: split at every slash, keeping empty segments. -/
def splitSlashAux (cur : List Char) : List Char → List String
  | [] => [String.mk cur.reverse]
  | c :: t =>
    if c = '/' then String.mk cur.reverse :: splitSlashAux [] t
    else splitSlashAux (c :: cur) t

def jsSplitSlash (s : String) : List String := splitSlashAux [] s.data

/-- `extractPRUrl` (slackListener.js lines 39-80). -/
def extractPRUrl (gitlabHost text : String) : Option PRInfo :=
  match findUrls text with
  | [] => none
  | urls =>
    match urls.find? (fun u => strContains u gitlabHost && strContains u "merge_requests") with
    | none => none
    | some gitlabUrl =>
      let parts := jsSplitSlash gitlabUrl
      match parts.findIdx? (fun p => p == "merge_requests") with
      | none => none
      | some mrIndex =>
        match parts[mrIndex + 1]? with
        | none => none
        | some iidStr =>
          if iidStr = "" then none
          else
            let pathParts := jsSlice parts 3 ((mrIndex : Int) - 1)
            if pathParts.length < 2 then none
            else
              let workspace := pathParts.headD ""
              let projectName := pathParts.getLastD ""
              let group := if pathParts.length = 3 then pathParts[1]? else none
              let projectPath :=
                match group with
                | some g => workspace ++ "/" ++ g ++ "/" ++ projectName
                | none => workspace ++ "/" ++ projectName
              some { url := gitlabUrl, workspace := workspace, group := group,
                     projectName := projectName, projectPath := projectPath,
                     mrIid := jsParseInt iidStr }

/-- One tracked review, exactly the record stored by `prTracker.set`
(slackListener.js lines 572-586). -/
structure PR where
  prUrl : String
  reviewers : List String
  channel : String
  approved : Bool
  merged : Bool
  projectPath : String
  mrIid : Option Int
  authorId : String
  createdAt : Option String
  lastUpdated : Option String
  commenters : List String
  approvalTimes : List (String × String)
  firstApprovalAt : Option String
deriving DecidableEq

/-- The `prTracker` map, keyed by the tracked message's timestamp. -/
abbrev Reg := List (String × PR)

/-- JS `Map.prototype.get`. -/
def mapGet {α : Type} : List (String × α) → String → Option α
  | [], _ => none
  | (k', v) :: t, k => if k' = k then some v else mapGet t k

/-- JS `Map.prototype.set`: replace in place, or append at the end. -/
def mapSet {α : Type} : List (String × α) → String → α → List (String × α)
  | [], k, v => [(k, v)]
  | (k', v') :: t, k, v => if k' = k then (k, v) :: t else (k', v') :: mapSet t k v

/-- JS `Map.prototype.delete` (the key occurs at most once in a real `Map`). -/
def mapDelete {α : Type} : List (String × α) → String → List (String × α)
  | [], _ => []
  | (k', v') :: t, k => if k' = k then t else (k', v') :: mapDelete t k

/-- JS truthiness of a nullable string field (`null` and `""` are falsy). -/
def jsTruthyStr : Option String → Bool
  | none => false
  | some s => s != ""

/-- `x || d` for a nullable string `x` (used for `firstApprovalAt`). -/
def jsOrStr (o : Option String) (d : String) : Option String :=
  if jsTruthyStr o then o else some d

/-- `removeReviewer` (slackListener.js lines 97-107).  The JS function returns
`prTracker.set(...)` — the `Map` object, which is truthy — whenever the record
exists, and `false` otherwise; the `Bool` component models that truthiness. -/
def removeReviewer (reg : Reg) (messageTs reviewerId : String) : Reg × Bool :=
  match mapGet reg messageTs with
  | some pr =>
    let newReviewers := pr.reviewers.filter (fun id => id != reviewerId)
    let pr2 := { pr with
      reviewers := newReviewers,
      approved := if newReviewers.isEmpty then true else pr.approved }
    (mapSet reg messageTs pr2, true)
  | none => (reg, false)

/-- `addReviewer` (slackListener.js lines 121-131). -/
def addReviewer (reg : Reg) (messageTs reviewerId : String) : Reg × Bool :=
  match mapGet reg messageTs with
  | none => (reg, false)
  | some pr =>
    if pr.reviewers.contains reviewerId then (reg, false)
    else (mapSet reg messageTs { pr with reviewers := pr.reviewers ++ [reviewerId] }, true)

/-- `stopTrackingPR` (slackListener.js lines 116-118). -/
def stopTrackingPR (reg : Reg) (messageTs : String) : Reg :=
  mapDelete reg messageTs

/-- Registry effect of `handlePrApproval` (slackListener.js lines 134-198):
record the approval time, set `firstApprovalAt` if unset (both in-place
mutations of the record held by the map), then `removeReviewer`.  Outbound
chat messages and the statistics call have no registry effect. -/
def handlePrApprovalState (reg : Reg) (messageTs : String) (pr : PR)
    (reactingUser approvedAt : String) : Reg :=
  let pr1 := { pr with
    approvalTimes := mapSet pr.approvalTimes reactingUser approvedAt,
    firstApprovalAt := jsOrStr pr.firstApprovalAt approvedAt }
  (removeReviewer (mapSet reg messageTs pr1) messageTs reactingUser).1

/-- Registry effect of `handleCommentsOnPR` (slackListener.js lines 201-231). -/
def handleCommentsOnPRState (reg : Reg) (messageTs : String) (pr : PR)
    (reactingUser now : String) : Reg :=
  let commenters :=
    if pr.commenters.contains reactingUser then pr.commenters
    else pr.commenters ++ [reactingUser]
  mapSet reg messageTs { pr with commenters := commenters, lastUpdated := some now }

/-- Registry effect of `handleMerge` (slackListener.js lines 234-258): mark the
record merged (in-place), then delete it. -/
def handleMergeState (reg : Reg) (messageTs : String) : Reg :=
  match mapGet reg messageTs with
  | some pr => mapDelete (mapSet reg messageTs { pr with merged := true }) messageTs
  | none => mapDelete reg messageTs

def approvalEmojis : List String := ["thumbsup", "+1"]
def commentEmojis : List String := ["memo"]
def mergeEmojis : List String := ["merge"]
def stopEmojis : List String := ["x"]
def fixedEmojis : List String := ["fixed", "hammer_and_wrench", "wrench"]

/-- `approvalEmojis.some((emoji) => reaction.includes(emoji))`. -/
def isApprovalReaction (reaction : String) : Bool :=
  approvalEmojis.any fun e => strContains reaction e

def isCommentReaction (reaction : String) : Bool :=
  commentEmojis.any fun e => strContains reaction e

def isMergeReaction (reaction : String) : Bool :=
  mergeEmojis.any fun e => strContains reaction e

/-- The stop emoji is matched by equality, not substring (slackListener.js
lines 651-653). -/
def isStopReaction (reaction : String) : Bool :=
  stopEmojis.any fun e => reaction == e

/-- Registry effect of the `reaction_added` listener (slackListener.js lines
621-663).  The `fixed` branch (`handlePRFixed`) sends messages but never
mutates the registry, so it coincides with the unmatched case here. -/
def handleReaction (reg : Reg) (messageTs : String) (threadTs : Option String)
    (reaction reactingUser now : String) : Reg :=
  match threadTs with
  | some _ => reg
  | none =>
    match mapGet reg messageTs with
    | none => reg
    | some pr =>
      let reviewerFound := pr.reviewers.contains reactingUser
      if isApprovalReaction reaction && reviewerFound then
        handlePrApprovalState reg messageTs pr reactingUser now
      else if isCommentReaction reaction && reviewerFound then
        handleCommentsOnPRState reg messageTs pr reactingUser now
      else if isMergeReaction reaction then
        handleMergeState reg messageTs
      else if isStopReaction reaction then
        stopTrackingPR reg messageTs
      else
        reg

/-- Registry effect of the PR-creation path of the `app_mention` listener
(slackListener.js lines 529-610): monitored channel, URL extraction,
duplicate-URL check, non-empty reviewer list, then `prTracker.set`. -/
def handleMessage (gitlabHost botUserId : String) (targetChannelIds : List String)
    (reg : Reg) (channel ts user text now : String) : Reg :=
  if !(targetChannelIds.contains channel) then reg
  else
    match extractPRUrl gitlabHost text with
    | none => reg
    | some prInfo =>
      if reg.any (fun p => p.2.prUrl == prInfo.url) then reg
      else
        let reviewerIds := extractReviewerIds botUserId text
        if reviewerIds.isEmpty then reg
        else
          mapSet reg ts
            { prUrl := prInfo.url, reviewers := reviewerIds, channel := channel,
              approved := false, merged := false, projectPath := prInfo.projectPath,
              mrIid := prInfo.mrIid, authorId := user, createdAt := some now,
              lastUpdated := some now, commenters := [], approvalTimes := [],
              firstApprovalAt := none }

def removedNotice (userId : String) : String :=
  "<@" ++ userId ++ "> has been removed as a reviewer."

def notReviewerNotice (userId : String) : String :=
  "<@" ++ userId ++ "> was not a reviewer."

/-- One iteration of the `remove-reviewer` thread-command loop (slackListener.js
lines 510-518): the notice depends on `removeReviewer`'s returned truthiness. -/
def threadRemoveReviewerCmd (reg : Reg) (threadTs userId : String) : Reg × String :=
  let res := removeReviewer reg threadTs userId
  (res.1, if res.2 then removedNotice userId else notReviewerNotice userId)

/-- The transitions reachable from inbound events: a channel message (creation
path), a reaction (approve / comment / merge / stop / fixed, by emoji name),
and the per-user thread commands. -/
inductive BotAction where
  | msgA (channel ts user text now : String)
  | reactA (ts : String) (threadTs : Option String) (reaction user now : String)
  | addRevA (ts user : String)
  | removeRevA (ts user : String)
deriving DecidableEq

def applyAction (gitlabHost botUserId : String) (targetChannelIds : List String)
    (reg : Reg) : BotAction → Reg
  | .msgA channel ts user text now =>
    handleMessage gitlabHost botUserId targetChannelIds reg channel ts user text now
  | .reactA ts threadTs reaction user now =>
    handleReaction reg ts threadTs reaction user now
  | .addRevA ts user => (addReviewer reg ts user).1
  | .removeRevA ts user => (removeReviewer reg ts user).1

def runActions (gitlabHost botUserId : String) (targetChannelIds : List String)
    (reg : Reg) (acts : List BotAction) : Reg :=
  acts.foldl (applyAction gitlabHost botUserId targetChannelIds) reg

/-- A single record satisfies the claimed invariant:
`approved == true` implies `reviewers` is empty. -/
def prOk (pr : PR) : Bool := !pr.approved || pr.reviewers.isEmpty

/-- The data-model invariant claimed for all tracked records. -/
def trackerInv (reg : Reg) : Bool :=
  reg.all fun p => prOk p.2

/-- Guard under which the amended invariant-preservation claim holds: the
`add-reviewer` transition may only be applied to a record that is not yet
approved (every other transition is unrestricted). -/
def addRevGuard (reg : Reg) : BotAction → Bool
  | .addRevA ts _ =>
    match mapGet reg ts with
    | some pr => !pr.approved
    | none => true
  | _ => true

/-- The concrete transition sequence refuting the original invariant claim:
create with one reviewer, approve by that reviewer (drains `reviewers`, sets
`approved`), then `add-reviewer` for a new user. -/
def cexActions : List BotAction :=
  [ .msgA "C1" "111.1" "UAUTH" "see https://g.h/w/p/-/merge_requests/7 <@UAAA1>" "t0",
    .reactA "111.1" none "thumbsup" "UAAA1" "t1",
    .addRevA "111.1" "UBBB2" ]

-- ======================= Statistics Ledger (statistics.js) ======================= --

/-- One user's statistics record, exactly the object built by
`initializeUserStats` (storage.js lines 75-89).  The two sample collections
are `Option`s because legacy persisted records may lack them (the migration
in statistics.js lines 262-310 backfills exactly these), and pushing onto a
missing collection is the ledger's internal failure mode.  Timestamps used in
arithmetic are millisecond epoch `Int`s. -/
structure UserStats where
  prsAuthored : Int
  prsApproved : Int
  commentsLeft : Int
  prsMerged : Int
  fastestApproval : Option Int
  longestPRDuration : Option Int
  approvalTimes : Option (List Int)
  prDurations : Option (List Int)
  lastUpdated : Int
  firstActivity : Int
deriving DecidableEq

abbrev StatsMap := List (String × UserStats)

/-- `initializeUserStats` (storage.js lines 75-89). -/
def initializeUserStats (now : Int) : UserStats :=
  { prsAuthored := 0, prsApproved := 0, commentsLeft := 0, prsMerged := 0,
    fastestApproval := none, longestPRDuration := none,
    approvalTimes := some [], prDurations := some [],
    lastUpdated := now, firstActivity := now }

/-- JS `Math.round`: nearest integer, halves toward positive infinity. -/
def jsMathRound (q : ℚ) : Int := ⌊q + 1 / 2⌋

/-- `calculateTimeDifferenceMinutes` (statistics.js lines 33-37):
`Math.round((end - start) / (1000 * 60))` on millisecond epoch times. -/
def calculateTimeDifferenceMinutes (startTime endTime : Int) : Int :=
  jsMathRound (((endTime : ℚ) - (startTime : ℚ)) / (1000 * 60))

/-- `ensureUserStats` (statistics.js lines 44-49). -/
def ensureUserStats (m : StatsMap) (userId : String) (now : Int) : StatsMap × UserStats :=
  match mapGet m userId with
  | some s => (m, s)
  | none =>
    let s := initializeUserStats now
    (mapSet m userId s, s)

/-- `updateUserStats` (statistics.js lines 56-59). -/
def updateUserStats (m : StatsMap) (userId : String) (stats : UserStats) (now : Int) : StatsMap :=
  mapSet m userId { stats with lastUpdated := now }

/-- JS `arr.push(x)` on a possibly-missing array field: throws a `TypeError`
when the field is `undefined`. -/
def jsPush : Option (List Int) → Int → Except String (List Int)
  | some l, x => .ok (l ++ [x])
  | none, _ => .error "TypeError: push of undefined"

/-- `safeStatsUpdate` (statistics.js lines 66-73): run the update, catch any
exception, log it, and swallow it.  The `Option String` component is the
exception surfaced to the caller (always `none` after the catch); the partial
in-place mutations made before a throw remain in the map. -/
def safeStatsUpdate (run : StatsMap × Option String) : StatsMap × Option String :=
  (run.1, none)

/-- Body of `trackPRCreation` (statistics.js lines 81-88). -/
def trackPRCreationInner (m : StatsMap) (authorId : String) (_prUrl : String)
    (_createdAt : Int) (now : Int) : StatsMap × Option String :=
  let res := ensureUserStats m authorId now
  let stats1 := { res.2 with prsAuthored := res.2.prsAuthored + 1 }
  (updateUserStats res.1 authorId stats1 now, none)

def trackPRCreation (m : StatsMap) (authorId : String) (prUrl : String)
    (createdAt : Int) (now : Int) : StatsMap × Option String :=
  safeStatsUpdate (trackPRCreationInner m authorId prUrl createdAt now)

/-- Body of `trackPRApproval` (statistics.js lines 97-123).  The counter
increment is an in-place mutation of the record held by the map, so it
persists even when the subsequent `push` throws. -/
def trackPRApprovalInner (m : StatsMap) (reviewerId : String) (_authorId : String)
    (prCreatedAt approvedAt now : Int) : StatsMap × Option String :=
  let res := ensureUserStats m reviewerId now
  let stats1 := { res.2 with prsApproved := res.2.prsApproved + 1 }
  let m2 := mapSet res.1 reviewerId stats1
  let approvalTimeMinutes := calculateTimeDifferenceMinutes prCreatedAt approvedAt
  match jsPush stats1.approvalTimes approvalTimeMinutes with
  | .error e => (m2, some e)
  | .ok newTimes =>
    let stats2 := { stats1 with
      approvalTimes := some newTimes,
      fastestApproval :=
        match stats1.fastestApproval with
        | none => some approvalTimeMinutes
        | some f => if approvalTimeMinutes < f then some approvalTimeMinutes else some f }
    (updateUserStats m2 reviewerId stats2 now, none)

def trackPRApproval (m : StatsMap) (reviewerId : String) (authorId : String)
    (prCreatedAt approvedAt now : Int) : StatsMap × Option String :=
  safeStatsUpdate (trackPRApprovalInner m reviewerId authorId prCreatedAt approvedAt now)

/-- Body of `trackComment` (statistics.js lines 130-138). -/
def trackCommentInner (m : StatsMap) (commenterId : String) (_prUrl : String)
    (now : Int) : StatsMap × Option String :=
  let res := ensureUserStats m commenterId now
  let stats1 := { res.2 with commentsLeft := res.2.commentsLeft + 1 }
  (updateUserStats res.1 commenterId stats1 now, none)

def trackComment (m : StatsMap) (commenterId : String) (prUrl : String)
    (now : Int) : StatsMap × Option String :=
  safeStatsUpdate (trackCommentInner m commenterId prUrl now)

/-- Body of `trackPRMerge` (statistics.js lines 146-172). -/
def trackPRMergeInner (m : StatsMap) (authorId : String)
    (prCreatedAt mergedAt now : Int) : StatsMap × Option String :=
  let res := ensureUserStats m authorId now
  let stats1 := { res.2 with prsMerged := res.2.prsMerged + 1 }
  let m2 := mapSet res.1 authorId stats1
  let durationMinutes := calculateTimeDifferenceMinutes prCreatedAt mergedAt
  match jsPush stats1.prDurations durationMinutes with
  | .error e => (m2, some e)
  | .ok newDurations =>
    let stats2 := { stats1 with
      prDurations := some newDurations,
      longestPRDuration :=
        match stats1.longestPRDuration with
        | none => some durationMinutes
        | some f => if durationMinutes > f then some durationMinutes else some f }
    (updateUserStats m2 authorId stats2 now, none)

def trackPRMerge (m : StatsMap) (authorId : String)
    (prCreatedAt mergedAt now : Int) : StatsMap × Option String :=
  safeStatsUpdate (trackPRMergeInner m authorId prCreatedAt mergedAt now)

/-- One leaderboard row, `{userId, value, stats}` (statistics.js line 204). -/
structure LBEntry where
  userId : String
  value : Option Int
  stats : UserStats
deriving DecidableEq

def validMetrics : List String :=
  ["prsAuthored", "prsApproved", "commentsLeft", "prsMerged",
   "fastestApproval", "longestPRDuration"]

/-- JS `stats[metric]` for the six valid metric names (`undefined`, i.e.
`none`, for anything else). -/
def metricValue (stats : UserStats) (metric : String) : Option Int :=
  if metric = "prsAuthored" then some stats.prsAuthored
  else if metric = "prsApproved" then some stats.prsApproved
  else if metric = "commentsLeft" then some stats.commentsLeft
  else if metric = "prsMerged" then some stats.prsMerged
  else if metric = "fastestApproval" then stats.fastestApproval
  else if metric = "longestPRDuration" then stats.longestPRDuration
  else none

/-- The filter of `getLeaderboard`: `value !== null && !== undefined && > 0`. -/
def lbKeep (e : LBEntry) : Bool :=
  match e.value with
  | some v => decide (0 < v)
  | none => false

/-- The sort comparator of `getLeaderboard`: `a.value - b.value` (ascending)
for `fastestApproval`, `b.value - a.value` (descending) otherwise; `a` stays
before `b` exactly when the comparator is non-positive.  Values are non-null
after the filter, so the `getD 0` default is never consulted there. -/
def lbLE (metric : String) (a b : LBEntry) : Bool :=
  if metric = "fastestApproval" then decide (a.value.getD 0 ≤ b.value.getD 0)
  else decide (b.value.getD 0 ≤ a.value.getD 0)

/-- `getLeaderboard` (statistics.js lines 189-224).  JS `Array.sort` is a
stable sort consistent with the comparator; it is modelled by `mergeSort`. -/
def getLeaderboard (tracker : StatsMap) (metric : String) (limit : Nat) :
    Except String (List LBEntry) :=
  if !(validMetrics.contains metric) then .error ("Invalid metric: " ++ metric)
  else
    .ok (((((tracker.map fun p =>
        ({ userId := p.1, value := metricValue p.2 metric, stats := p.2 } : LBEntry)).filter
        lbKeep).mergeSort (lbLE metric)).take limit))

-- ======================= Reminder sweep (prReminders.js) ======================= --

def oneDayMs : Int := 24 * 60 * 60 * 1000

/-- `authorPRs.has/set/get(...).push(...)` grouping: append to the key's list
in place, or add a new key at the end. -/
def groupAdd {α : Type} : List (String × List α) → String → α → List (String × List α)
  | [], k, e => [(k, [e])]
  | (k', l) :: t, k, e =>
    if k' = k then (k', l ++ [e]) :: t else (k', l) :: groupAdd t k e

/-- `getStaleAuthorPRs` (prReminders.js lines 83-107): for every tracked,
unapproved review with a truthy `lastUpdated`, query the code host for the
true last-update time (`checkLastUpdate`, an external call modelled as a
function argument) and collect the review under its author when
`now - lastUpdateTime > ONE_DAY_MS` (strict). -/
def getStaleAuthorPRs (checkLastUpdate : String → Option Int → Int) (now : Int)
    (reg : Reg) : List (String × List (String × String)) :=
  reg.foldl
    (fun acc p =>
      if !p.2.approved && jsTruthyStr p.2.lastUpdated then
        let lastUpdateTime := checkLastUpdate p.2.projectPath p.2.mrIid
        if now - lastUpdateTime > oneDayMs then
          groupAdd acc p.2.authorId (p.2.prUrl, p.1)
        else acc
      else acc)
    []


-- ======================= Persistence (storage.js) ======================= --

/-- JSON values (the documents consumed and produced by the platform's
`JSON.parse` / `JSON.stringify`).  Numbers are restricted to integers — the
only numbers a tracked record contains — and a `NaN` number field serializes
to `null`, matching the `Option Int` model of `mrIid`. -/
inductive JVal where
  | jnull : JVal
  | jbool : Bool → JVal
  | jnum : Int → JVal
  | jstr : String → JVal
  | jarr : List JVal → JVal
  | jobj : List (String × JVal) → JVal

def digitTable : List Char := ['0', '1', '2', '3', '4', '5', '6', '7', '8', '9']

def digitChar (d : Nat) : Char := digitTable.getD d '0'

def hexDigitChar (n : Nat) : Char :=
  if n < 10 then digitChar n
  else ['a', 'b', 'c', 'd', 'e', 'f'].getD (n - 10) 'a'

/-- JSON string escaping as performed by `JSON.stringify`. -/
def escChar (c : Char) : List Char :=
  if c = '"' then ['\\', '"']
  else if c = '\\' then ['\\', '\\']
  else if c = '\x08' then ['\\', 'b']
  else if c = '\x0c' then ['\\', 'f']
  else if c = '\n' then ['\\', 'n']
  else if c = '\r' then ['\\', 'r']
  else if c = '\t' then ['\\', 't']
  else if c.toNat < 32 then
    ['\\', 'u', '0', '0', hexDigitChar (c.toNat / 16), hexDigitChar (c.toNat % 16)]
  else [c]

def escBody : List Char → List Char
  | [] => []
  | c :: t => escChar c ++ escBody t

/-- A JSON string literal: quote, escaped body, quote. -/
def strLit (s : String) : List Char := '"' :: (escBody s.data ++ ['"'])

/-- Decimal digits of a natural number. -/
def natToChars (n : Nat) : List Char :=
  if n < 10 then [digitChar n]
  else natToChars (n / 10) ++ [digitChar (n % 10)]
termination_by n
decreasing_by exact Nat.div_lt_self (by omega) (by omega)

def intToChars (n : Int) : List Char :=
  if n < 0 then '-' :: natToChars n.natAbs else natToChars n.toNat

/- `JSON.stringify` (compact form; the indentation argument used by
`savePRData` inserts only inter-token whitespace, which `JSON.parse` skips,
so it does not affect the parsed value). -/
mutual
def stringifyVal : JVal → List Char
  | .jnull => ['n', 'u', 'l', 'l']
  | .jbool true => ['t', 'r', 'u', 'e']
  | .jbool false => ['f', 'a', 'l', 's', 'e']
  | .jnum n => intToChars n
  | .jstr s => strLit s
  | .jarr [] => ['[', ']']
  | .jarr (v :: t) => '[' :: (stringifyVal v ++ stringifyElems t ++ [']'])
  | .jobj [] => ['\x7b', '\x7d']
  | .jobj ((k, v) :: t) =>
    '\x7b' :: (strLit k ++ ':' :: stringifyVal v ++ stringifyMembers t ++ ['\x7d'])

def stringifyElems : List JVal → List Char
  | [] => []
  | v :: t => ',' :: stringifyVal v ++ stringifyElems t

def stringifyMembers : List (String × JVal) → List Char
  | [] => []
  | (k, v) :: t => ',' :: strLit k ++ ':' :: stringifyVal v ++ stringifyMembers t
end

def jsonWsChar (c : Char) : Bool := c = ' ' || c = '\t' || c = '\n' || c = '\r'

def skipWs (l : List Char) : List Char := l.dropWhile jsonWsChar

def hexVal (c : Char) : Option Nat :=
  if '0' ≤ c ∧ c ≤ '9' then some (c.toNat - 48)
  else if 'a' ≤ c ∧ c ≤ 'f' then some (c.toNat - 87)
  else if 'A' ≤ c ∧ c ≤ 'F' then some (c.toNat - 55)
  else none

/-- Parse the body of a JSON string literal (after the opening quote), up to
and including the closing quote, decoding escapes. -/
def parseStrChars : List Char → Option (List Char × List Char)
  | [] => none
  | c :: r =>
    if c = '"' then some ([], r)
    else if c = '\\' then
      match r with
      | [] => none
      | e :: r2 =>
        if e = '"' then (parseStrChars r2).map fun p => ('"' :: p.1, p.2)
        else if e = '\\' then (parseStrChars r2).map fun p => ('\\' :: p.1, p.2)
        else if e = '/' then (parseStrChars r2).map fun p => ('/' :: p.1, p.2)
        else if e = 'b' then (parseStrChars r2).map fun p => ('\x08' :: p.1, p.2)
        else if e = 'f' then (parseStrChars r2).map fun p => ('\x0c' :: p.1, p.2)
        else if e = 'n' then (parseStrChars r2).map fun p => ('\n' :: p.1, p.2)
        else if e = 'r' then (parseStrChars r2).map fun p => ('\r' :: p.1, p.2)
        else if e = 't' then (parseStrChars r2).map fun p => ('\t' :: p.1, p.2)
        else if e = 'u' then
          match r2 with
          | h1 :: h2 :: h3 :: h4 :: r3 =>
            match hexVal h1, hexVal h2, hexVal h3, hexVal h4 with
            | some a, some b, some c2, some d =>
              (parseStrChars r3).map fun p =>
                (Char.ofNat (((a * 16 + b) * 16 + c2) * 16 + d) :: p.1, p.2)
            | _, _, _, _ => none
          | _ => none
        else none
    else (parseStrChars r).map fun p => (c :: p.1, p.2)

/-- Parse a run of decimal digits. -/
def parseNat (l : List Char) : Option (Nat × List Char) :=
  let ds := l.takeWhile Char.isDigit
  if ds.isEmpty then none else some (digitsToNat ds, l.dropWhile Char.isDigit)

/- Recursive-descent JSON parser (`JSON.parse`).  `fuel` bounds the nesting
drilled through; callers pass more fuel than the input length, which always
suffices. -/
mutual
def parseVal : Nat → List Char → Option (JVal × List Char)
  | 0, _ => none
  | fuel + 1, input =>
    match skipWs input with
    | [] => none
    | c :: r =>
      if c = 'n' then
        if ['u', 'l', 'l'].isPrefixOf r then some (.jnull, r.drop 3) else none
      else if c = 't' then
        if ['r', 'u', 'e'].isPrefixOf r then some (.jbool true, r.drop 3) else none
      else if c = 'f' then
        if ['a', 'l', 's', 'e'].isPrefixOf r then some (.jbool false, r.drop 4) else none
      else if c = '"' then
        (parseStrChars r).map fun p => (.jstr (String.mk p.1), p.2)
      else if c = '[' then
        match skipWs r with
        | ']' :: r2 => some (.jarr [], r2)
        | r2 => (parseElemsTail fuel r2).map fun p => (.jarr p.1, p.2)
      else if c = '\x7b' then
        match skipWs r with
        | '\x7d' :: r2 => some (.jobj [], r2)
        | r2 => (parseMembersTail fuel r2).map fun p => (.jobj p.1, p.2)
      else if c = '-' then
        (parseNat r).map fun p => (.jnum (-(p.1 : Int)), p.2)
      else if c.isDigit then
        (parseNat (c :: r)).map fun p => (.jnum (p.1 : Int), p.2)
      else none

def parseElemsTail : Nat → List Char → Option (List JVal × List Char)
  | 0, _ => none
  | fuel + 1, input =>
    match parseVal fuel input with
    | none => none
    | some (v, r) =>
      match skipWs r with
      | ',' :: r2 =>
        match parseElemsTail fuel r2 with
        | none => none
        | some (vs, r3) => some (v :: vs, r3)
      | ']' :: r2 => some ([v], r2)
      | _ => none

def parseMembersTail : Nat → List Char → Option (List (String × JVal) × List Char)
  | 0, _ => none
  | fuel + 1, input =>
    match input with
    | '"' :: r =>
      match parseStrChars r with
      | none => none
      | some (k, r1) =>
        match skipWs r1 with
        | ':' :: r2 =>
          match parseVal fuel r2 with
          | none => none
          | some (v, r3) =>
            match skipWs r3 with
            | ',' :: r4 =>
              match parseMembersTail fuel (skipWs r4) with
              | none => none
              | some (ms, r5) => some ((String.mk k, v) :: ms, r5)
            | '\x7d' :: r4 => some ([(String.mk k, v)], r4)
            | _ => none
        | _ => none
    | _ => none
end

def parseJson (s : String) : Option JVal :=
  match parseVal (s.data.length + 1) s.data with
  | some (v, r) => match skipWs r with | [] => some v | _ => none
  | none => none

def encOptStr : Option String → JVal
  | none => .jnull
  | some s => .jstr s

def encStrList (l : List String) : JVal := .jarr (l.map .jstr)

/-- A `NaN` `mrIid` (failed `parseInt`) serializes to `null`. -/
def encOptInt : Option Int → JVal
  | none => .jnull
  | some n => .jnum n

def encTimes (l : List (String × String)) : JVal :=
  .jobj (l.map fun p => (p.1, .jstr p.2))

/-- The tracked record as the JS object held by the `prTracker` map, with the
thirteen declared fields in creation order (slackListener.js lines 572-586). -/
def prToJson (pr : PR) : JVal :=
  .jobj [("prUrl", .jstr pr.prUrl), ("reviewers", encStrList pr.reviewers),
         ("channel", .jstr pr.channel), ("approved", .jbool pr.approved),
         ("merged", .jbool pr.merged), ("projectPath", .jstr pr.projectPath),
         ("mrIid", encOptInt pr.mrIid), ("authorId", .jstr pr.authorId),
         ("createdAt", encOptStr pr.createdAt),
         ("lastUpdated", encOptStr pr.lastUpdated),
         ("commenters", encStrList pr.commenters),
         ("approvalTimes", encTimes pr.approvalTimes),
         ("firstApprovalAt", encOptStr pr.firstApprovalAt)]

def decStr : JVal → Option String
  | .jstr s => some s
  | _ => none

def decBool : JVal → Option Bool
  | .jbool b => some b
  | _ => none

def decOptStr : JVal → Option (Option String)
  | .jnull => some none
  | .jstr s => some (some s)
  | _ => none

def decOptInt : JVal → Option (Option Int)
  | .jnull => some none
  | .jnum n => some (some n)
  | _ => none

def decStrs : List JVal → Option (List String)
  | [] => some []
  | v :: t =>
    match decStr v, decStrs t with
    | some s, some r => some (s :: r)
    | _, _ => none

def decStrList : JVal → Option (List String)
  | .jarr l => decStrs l
  | _ => none

def decTimesList : List (String × JVal) → Option (List (String × String))
  | [] => some []
  | (k, v) :: t =>
    match decStr v, decTimesList t with
    | some s, some r => some ((k, s) :: r)
    | _, _ => none

def decTimes : JVal → Option (List (String × String))
  | .jobj l => decTimesList l
  | _ => none

/-- Read a tracked record back off its parsed JSON object (the loaded object
is used directly as the record in JS; this spells out the thirteen declared
fields the rest of the engine accesses). -/
def prOfJson : JVal → Option PR
  | .jobj fields => do
    let prUrl ← (mapGet fields "prUrl").bind decStr
    let reviewers ← (mapGet fields "reviewers").bind decStrList
    let channel ← (mapGet fields "channel").bind decStr
    let approved ← (mapGet fields "approved").bind decBool
    let merged ← (mapGet fields "merged").bind decBool
    let projectPath ← (mapGet fields "projectPath").bind decStr
    let mrIid ← (mapGet fields "mrIid").bind decOptInt
    let authorId ← (mapGet fields "authorId").bind decStr
    let createdAt ← (mapGet fields "createdAt").bind decOptStr
    let lastUpdated ← (mapGet fields "lastUpdated").bind decOptStr
    let commenters ← (mapGet fields "commenters").bind decStrList
    let approvalTimes ← (mapGet fields "approvalTimes").bind decTimes
    let firstApprovalAt ← (mapGet fields "firstApprovalAt").bind decOptStr
    pure { prUrl, reviewers, channel, approved, merged, projectPath, mrIid,
           authorId, createdAt, lastUpdated, commenters, approvalTimes,
           firstApprovalAt }
  | _ => none

/-- `Object.fromEntries`: repeated `obj[k] = v` (first position, last value). -/
def jsFromEntries {α : Type} (l : List (String × α)) : List (String × α) :=
  l.foldl (fun acc p => mapSet acc p.1 p.2) []

/-- `savePRData` (storage.js lines 33-40):
`JSON.stringify(Object.fromEntries(prData))`. -/
def savePRData (prData : Reg) : String :=
  String.mk (stringifyVal (.jobj (jsFromEntries (prData.map fun p => (p.1, prToJson p.2)))))

def decodeEntries : List (String × JVal) → Option Reg
  | [] => some []
  | (k, v) :: t =>
    match prOfJson v, decodeEntries t with
    | some pr, some r => some ((k, pr) :: r)
    | _, _ => none

/-- `loadPRData` (storage.js lines 17-27):
`new Map(Object.entries(JSON.parse(text)))`, with the parsed objects read back
as records. -/
def loadPRData (s : String) : Option Reg :=
  match parseJson s with
  | some (.jobj entries) => decodeEntries entries
  | _ => none

-- ======================= Concrete inputs used by closed theorems ======================= --

/-- Scenario A message: a review link with two reviewer mentions. -/
def scenarioAText : String :=
  "Review please https://gitlab.example.com/workspace/group/project/-/merge_requests/42 <@UAAA1> <@UBBB2>"

/-- The record scenario A must create. -/
def scenarioARecord : PR :=
  { prUrl := "https://gitlab.example.com/workspace/group/project/-/merge_requests/42",
    reviewers := ["UAAA1", "UBBB2"], channel := "C0001", approved := false,
    merged := false, projectPath := "workspace/group/project", mrIid := some 42,
    authorId := "UAUTH", createdAt := some "T0", lastUpdated := some "T0",
    commenters := [], approvalTimes := [], firstApprovalAt := none }

/-- A tracked record whose only reviewer is `UAAA1`. -/
def prOneReviewer : PR :=
  { prUrl := "https://g.h/w/p/-/merge_requests/7", reviewers := ["UAAA1"],
    channel := "C1", approved := false, merged := false, projectPath := "w/p",
    mrIid := some 7, authorId := "UAUTH", createdAt := some "t0",
    lastUpdated := some "t0", commenters := [], approvalTimes := [],
    firstApprovalAt := none }

def statsU1 : UserStats :=
  { prsAuthored := 3, prsApproved := 1, commentsLeft := 0, prsMerged := 1,
    fastestApproval := some 30, longestPRDuration := some 200,
    approvalTimes := some [30], prDurations := some [200],
    lastUpdated := 0, firstActivity := 0 }

def statsU2 : UserStats :=
  { prsAuthored := 1, prsApproved := 4, commentsLeft := 2, prsMerged := 0,
    fastestApproval := some 10, longestPRDuration := none,
    approvalTimes := some [10, 25], prDurations := some [],
    lastUpdated := 0, firstActivity := 0 }

def statsU3 : UserStats :=
  { prsAuthored := 0, prsApproved := 0, commentsLeft := 5, prsMerged := 0,
    fastestApproval := none, longestPRDuration := none,
    approvalTimes := some [], prDurations := some [],
    lastUpdated := 0, firstActivity := 0 }

def trackerW : StatsMap := [("U1", statsU1), ("U2", statsU2), ("U3", statsU3)]

/-- A persisted collection with the empty-collection and null-timestamp
corner cases from the round-trip claim. -/
def roundW : Reg :=
  [("100.1", scenarioARecord), ("5.0", prOneReviewer),
   ("7.0", { prOneReviewer with
     prUrl := "u7", reviewers := [], commenters := [], approvalTimes := [],
     mrIid := none, createdAt := none, lastUpdated := none,
     firstApprovalAt := none })]

-- ======================= Map lemmas ======================= --

theorem mapGet_mapSet_self {α : Type} (m : List (String × α)) (k : String) (v : α) :
    mapGet (mapSet m k v) k = some v := by
  induction m with
  | nil => simp [mapGet, mapSet]
  | cons h t ih =>
    obtain ⟨k', v'⟩ := h
    by_cases hk : k' = k
    · simp [mapSet, hk, mapGet]
    · simp [mapSet, hk, mapGet, ih]

theorem mapSet_mapSet {α : Type} (m : List (String × α)) (k : String) (v w : α) :
    mapSet (mapSet m k v) k w = mapSet m k w := by
  induction m with
  | nil => simp [mapSet]
  | cons h t ih =>
    obtain ⟨k', v'⟩ := h
    by_cases hk : k' = k
    · simp [mapSet, hk]
    · simp [mapSet, hk, ih]

theorem mem_mapSet {α : Type} {m : List (String × α)} {k : String} {v : α}
    {p : String × α} (hp : p ∈ mapSet m k v) : p = (k, v) ∨ p ∈ m := by
  induction m with
  | nil => simpa [mapSet] using hp
  | cons h t ih =>
    obtain ⟨k', v'⟩ := h
    by_cases hk : k' = k
    · simp only [mapSet, hk, if_pos] at hp
      rcases List.mem_cons.mp hp with h1 | h1
      · exact Or.inl h1
      · exact Or.inr (List.mem_cons_of_mem _ h1)
    · simp only [mapSet, hk, if_neg, not_false_iff] at hp
      rcases List.mem_cons.mp hp with h1 | h1
      · exact Or.inr (h1 ▸ List.mem_cons_self _ _)
      · rcases ih h1 with h2 | h2
        · exact Or.inl h2
        · exact Or.inr (List.mem_cons_of_mem _ h2)

theorem mem_mapDelete {α : Type} {m : List (String × α)} {k : String}
    {p : String × α} (hp : p ∈ mapDelete m k) : p ∈ m := by
  induction m with
  | nil => simp [mapDelete] at hp
  | cons h t ih =>
    obtain ⟨k', v'⟩ := h
    by_cases hk : k' = k
    · simp only [mapDelete, hk, if_pos] at hp
      exact List.mem_cons_of_mem _ hp
    · simp only [mapDelete, hk, if_neg, not_false_iff] at hp
      rcases List.mem_cons.mp hp with h1 | h1
      · exact h1 ▸ List.mem_cons_self _ _
      · exact List.mem_cons_of_mem _ (ih h1)

theorem mapGet_mem {α : Type} {m : List (String × α)} {k : String} {v : α}
    (h : mapGet m k = some v) : (k, v) ∈ m := by
  induction m with
  | nil => simp [mapGet] at h
  | cons hd t ih =>
    obtain ⟨k', v'⟩ := hd
    by_cases hk : k' = k
    · simp only [mapGet, hk, if_pos] at h
      obtain rfl : v' = v := by exact Option.some.inj h
      exact hk ▸ List.mem_cons_self _ _
    · simp only [mapGet, hk, if_neg, not_false_iff] at h
      exact List.mem_cons_of_mem _ (ih h)

-- ======================= Invariant lemmas ======================= --

theorem trackerInv_iff {reg : Reg} :
    trackerInv reg = true ↔ ∀ p ∈ reg, prOk p.2 = true := by
  simp [trackerInv, List.all_eq_true]

theorem trackerInv_mapSet {reg : Reg} {k : String} {v : PR}
    (h : trackerInv reg = true) (hv : prOk v = true) :
    trackerInv (mapSet reg k v) = true := by
  rw [trackerInv_iff] at h ⊢
  intro p hp
  rcases mem_mapSet hp with rfl | hp
  · exact hv
  · exact h p hp

theorem trackerInv_mapDelete {reg : Reg} {k : String}
    (h : trackerInv reg = true) :
    trackerInv (mapDelete reg k) = true := by
  rw [trackerInv_iff] at h ⊢
  intro p hp
  exact h p (mem_mapDelete hp)

theorem trackerInv_get {reg : Reg} {k : String} {pr : PR}
    (h : trackerInv reg = true) (hg : mapGet reg k = some pr) :
    prOk pr = true :=
  trackerInv_iff.mp h (k, pr) (mapGet_mem hg)

-- ======================= Transition-preservation lemmas ======================= --

theorem inv_removeReviewer {reg : Reg} (ts u : String) (h : trackerInv reg = true) :
    trackerInv (removeReviewer reg ts u).1 = true := by
  cases hg : mapGet reg ts with
  | none => simpa [removeReviewer, hg] using h
  | some pr =>
    simp only [removeReviewer, hg]
    apply trackerInv_mapSet h
    have hpr := trackerInv_get h hg
    by_cases he : (pr.reviewers.filter fun id => id != u).isEmpty = true
    · simp [prOk, he]
    · cases hap : pr.approved with
      | false => simp [prOk, he, hap]
      | true =>
        have hrev : pr.reviewers = [] := by
          have := hpr
          simp only [prOk, hap, Bool.not_true, Bool.false_or] at this
          exact List.isEmpty_iff.mp this
        simp [hrev, List.filter] at he

theorem inv_handleMessage (gitlabHost botUserId : String) (targets : List String)
    (reg : Reg) (ch ts u tx now : String) (h : trackerInv reg = true) :
    trackerInv (handleMessage gitlabHost botUserId targets reg ch ts u tx now) = true := by
  unfold handleMessage
  split
  · exact h
  · split
    · exact h
    · split
      · exact h
      · dsimp only
        split
        · exact h
        · exact trackerInv_mapSet h rfl

theorem inv_handleReaction (reg : Reg) (ts : String) (th : Option String)
    (reaction u now : String) (h : trackerInv reg = true) :
    trackerInv (handleReaction reg ts th reaction u now) = true := by
  cases th with
  | some s => simpa [handleReaction] using h
  | none =>
    cases hg : mapGet reg ts with
    | none => simpa [handleReaction, hg] using h
    | some pr =>
      have hpr := trackerInv_get h hg
      simp only [handleReaction, hg]
      split
      · -- approval
        unfold handlePrApprovalState
        exact inv_removeReviewer ts u (trackerInv_mapSet h (by simpa [prOk] using hpr))
      · split
        · -- comment
          unfold handleCommentsOnPRState
          exact trackerInv_mapSet h (by simpa [prOk] using hpr)
        · split
          · -- merge
            simp only [handleMergeState, hg]
            exact trackerInv_mapDelete (trackerInv_mapSet h (by simpa [prOk] using hpr))
          · split
            · -- stop
              unfold stopTrackingPR
              exact trackerInv_mapDelete h
            · exact h

-- ======================= C1 ======================= --

/-- C1 (counterexample): the invariant `approved == true → reviewers = []` is
NOT preserved by every transition sequence: creating a review with one
reviewer, approving it, then adding a reviewer in the thread yields a
reachable record with `approved == true` and a non-empty reviewer list. -/
theorem tracking_invariant_cex :
    trackerInv (runActions "g.h" "UBOT" ["C1"] [] cexActions) = false := by decide

/-- C1 (amended): every transition preserves the invariant
`approved == true → reviewers = []`, EXCEPT that `add-reviewer` must only be
applied to a record that is not yet approved (`addRevGuard`); applied to an
approved record, `addReviewer` violates the invariant (see the
counterexample). -/
theorem tracking_invariant_preserved (gitlabHost botUserId : String)
    (targetChannelIds : List String) (a : BotAction) (reg : Reg)
    (hInv : trackerInv reg = true) (hAdd : addRevGuard reg a = true) :
    trackerInv (applyAction gitlabHost botUserId targetChannelIds reg a) = true := by
  cases a with
  | msgA ch ts u tx now => exact inv_handleMessage gitlabHost botUserId targetChannelIds reg ch ts u tx now hInv
  | reactA ts th r u now => exact inv_handleReaction reg ts th r u now hInv
  | removeRevA ts u => exact inv_removeReviewer ts u hInv
  | addRevA ts u =>
    simp only [applyAction]
    cases hg : mapGet reg ts with
    | none => simpa [addReviewer, hg] using hInv
    | some pr =>
      have hap : pr.approved = false := by
        simp only [addRevGuard, hg] at hAdd
        simpa using hAdd
      simp only [addReviewer, hg]
      split
      · exact hInv
      · exact trackerInv_mapSet hInv (by simp [prOk, hap])

/-- Witness for the amended C1 claim at a concrete input. -/
theorem tracking_invariant_preserved_witness :
    trackerInv [("5.0", prOneReviewer)] = true ∧
    addRevGuard [("5.0", prOneReviewer)] (.addRevA "5.0" "UBBB2") = true ∧
    trackerInv (applyAction "g.h" "UBOT" ["C1"] [("5.0", prOneReviewer)]
      (.addRevA "5.0" "UBBB2")) = true :=
  ⟨by decide, by decide,
    tracking_invariant_preserved "g.h" "UBOT" ["C1"] (.addRevA "5.0" "UBBB2")
      [("5.0", prOneReviewer)] (by decide) (by decide)⟩

-- ======================= C2 ======================= --

/-- C2 (code bug): a `remove-reviewer` thread command for a user who is NOT a
reviewer still gets the "has been removed" notice, because `removeReviewer`
returns the (truthy) `Map` whenever the record exists; the "was not a
reviewer" reply is unreachable in this path.  The record itself is unchanged. -/
theorem remove_nonreviewer_sends_removed_notice :
    prOneReviewer.reviewers.contains "UBBB2" = false ∧
    threadRemoveReviewerCmd [("5.0", prOneReviewer)] "5.0" "UBBB2"
      = ([("5.0", prOneReviewer)], removedNotice "UBBB2") := by decide

-- ======================= C3 ======================= --

/-- C3: a message in a monitored channel containing a review URL whose path is
workspace, group, project, the review-path marker, then 42, and mentioning two
users, creates exactly one tracked record with those two reviewers,
`mrIid = 42`, `projectPath = "workspace/group/project"`, `approved = false`. -/
theorem scenarioA_creates_tracked_review :
    handleMessage "gitlab.example.com" "UBOT" ["C0001"] [] "C0001" "100.1" "UAUTH"
      scenarioAText "T0" = [("100.1", scenarioARecord)] := by decide

-- ======================= C4 ======================= --

theorem contains_filter_ne (l : List String) (u : String) :
    (l.filter fun id => id != u).contains u = false := by
  simp [List.mem_filter]

theorem handleReaction_thumbsup_nonreviewer (reg : Reg) (ts u t : String) (pr : PR)
    (hg : mapGet reg ts = some pr) (hrf : pr.reviewers.contains u = false) :
    handleReaction reg ts none "thumbsup" u t = reg := by
  have hm : isMergeReaction "thumbsup" = false := by decide
  have hs : isStopReaction "thumbsup" = false := by decide
  simp only [handleReaction, hg, hrf, hm, hs, Bool.and_false, Bool.false_eq_true,
    if_false]

theorem handleReaction_thumbsup_reviewer (reg : Reg) (ts u t : String) (pr : PR)
    (hg : mapGet reg ts = some pr) (hrf : pr.reviewers.contains u = true) :
    handleReaction reg ts none "thumbsup" u t =
      mapSet reg ts
        { pr with
          reviewers := pr.reviewers.filter fun id => id != u,
          approved := if (pr.reviewers.filter fun id => id != u).isEmpty then true
            else pr.approved,
          approvalTimes := mapSet pr.approvalTimes u t,
          firstApprovalAt := jsOrStr pr.firstApprovalAt t } := by
  have hcond : (isApprovalReaction "thumbsup" && pr.reviewers.contains u) = true := by
    rw [hrf]; decide
  simp only [handleReaction, hg]
  rw [if_pos hcond]
  simp only [handlePrApprovalState, removeReviewer, mapGet_mapSet_self, mapSet_mapSet]

/-- C4: a second 👍 approval by the same reviewer on the same record has no
effect: the first approval removed the actor from `reviewers`, so the second
reaction matches no transition and the registry is unchanged. -/
theorem approve_twice_idempotent (reg : Reg) (ts u t1 t2 : String) :
    handleReaction (handleReaction reg ts none "thumbsup" u t1) ts none "thumbsup" u t2
      = handleReaction reg ts none "thumbsup" u t1 := by
  cases hg : mapGet reg ts with
  | none =>
    have h1 : handleReaction reg ts none "thumbsup" u t1 = reg := by
      simp [handleReaction, hg]
    rw [h1]
    simp [handleReaction, hg]
  | some pr =>
    cases hrf : pr.reviewers.contains u with
    | false =>
      rw [handleReaction_thumbsup_nonreviewer reg ts u t1 pr hg hrf]
      exact handleReaction_thumbsup_nonreviewer reg ts u t2 pr hg hrf
    | true =>
      rw [handleReaction_thumbsup_reviewer reg ts u t1 pr hg hrf]
      exact handleReaction_thumbsup_nonreviewer _ ts u t2 _
        (mapGet_mapSet_self _ _ _) (contains_filter_ne pr.reviewers u)

-- ======================= C5 ======================= --

/-- C5: in the stale-author pass, an unapproved record with a truthy
`lastUpdated` is classified stale exactly when `now` minus the code host's
last-update time strictly exceeds 24 hours. -/
theorem stale_classification (ext : String → Option Int → Int) (now : Int)
    (ts : String) (pr : PR) (h1 : pr.approved = false)
    (h2 : jsTruthyStr pr.lastUpdated = true) :
    getStaleAuthorPRs ext now [(ts, pr)] =
      if now - ext pr.projectPath pr.mrIid > oneDayMs then
        [(pr.authorId, [(pr.prUrl, ts)])]
      else [] := by
  by_cases hc : now - ext pr.projectPath pr.mrIid > oneDayMs
  · simp [getStaleAuthorPRs, h1, h2, hc, groupAdd]
  · simp [getStaleAuthorPRs, h1, h2, hc]

/-- Witness for C5 at the two boundary instants: 24h + 1min in the past is
stale, exactly 24h in the past is not. -/
theorem stale_classification_witness :
    getStaleAuthorPRs (fun _ _ => 0) (oneDayMs + 60000) [("5.0", prOneReviewer)]
        = [("UAUTH", [("https://g.h/w/p/-/merge_requests/7", "5.0")])] ∧
    getStaleAuthorPRs (fun _ _ => 0) oneDayMs [("5.0", prOneReviewer)] = [] := by
  constructor
  · have h := stale_classification (fun _ _ => 0) (oneDayMs + 60000) "5.0"
      prOneReviewer rfl (by decide)
    rw [h]
    norm_num [oneDayMs, prOneReviewer]
  · have h := stale_classification (fun _ _ => 0) oneDayMs "5.0"
      prOneReviewer rfl (by decide)
    rw [h]
    norm_num [oneDayMs]

-- ======================= C8 ======================= --

/-- C8: none of the four statistics update operations ever surfaces an
exception to its caller: `safeStatsUpdate` catches and swallows any internal
failure (such as pushing onto a missing sample collection). -/
theorem stats_updates_never_throw (m : StatsMap) (u a pu : String) (t1 t2 now : Int) :
    (trackPRCreation m u pu t1 now).2 = none ∧
    (trackPRApproval m u a t1 t2 now).2 = none ∧
    (trackComment m u pu now).2 = none ∧
    (trackPRMerge m u t1 t2 now).2 = none :=
  ⟨rfl, rfl, rfl, rfl⟩

-- ======================= C9 ======================= --

/-- C9: the recorded duration is exactly `round((end - start) / 60000)` with
JS `Math.round` semantics, and it is negative (no clamping) exactly when the
interval is inverted by more than half a minute. -/
theorem duration_rounding (s e : Int) :
    calculateTimeDifferenceMinutes s e = ⌊((e - s : Int) : ℚ) / 60000 + 1 / 2⌋ ∧
    (calculateTimeDifferenceMinutes s e < 0 ↔ (e - s : Int) < -30000) := by
  have heq : calculateTimeDifferenceMinutes s e = ⌊((e - s : Int) : ℚ) / 60000 + 1 / 2⌋ := by
    unfold calculateTimeDifferenceMinutes jsMathRound
    congr 1
    push_cast
    norm_num
  refine ⟨heq, ?_⟩
  rw [heq]
  rw [show (0 : Int) = ((0 : Int) : Int) from rfl, Int.floor_lt]
  have hrw : ((e - s : Int) : ℚ) / 60000 + 1 / 2 = (((e - s : Int) : ℚ) + 30000) / 60000 := by
    ring
  rw [hrw, div_lt_iff₀ (by norm_num : (0 : ℚ) < 60000)]
  constructor
  · intro h
    have h2 : ((e - s : Int) : ℚ) < -30000 := by push_cast at h ⊢; linarith
    exact_mod_cast h2
  · intro h
    have h2 : ((e - s : Int) : ℚ) < -30000 := by exact_mod_cast h
    push_cast at h2 ⊢
    linarith

-- ======================= C6 / C10 ======================= --

theorem lbLE_trans (metric : String) (a b c : LBEntry)
    (hab : lbLE metric a b = true) (hbc : lbLE metric b c = true) :
    lbLE metric a c = true := by
  unfold lbLE at hab hbc ⊢
  by_cases hm : metric = "fastestApproval"
  · rw [if_pos hm] at hab hbc ⊢
    rw [decide_eq_true_iff] at hab hbc ⊢
    exact le_trans hab hbc
  · rw [if_neg hm] at hab hbc ⊢
    rw [decide_eq_true_iff] at hab hbc ⊢
    exact le_trans hbc hab

theorem lbLE_total (metric : String) (a b : LBEntry) :
    (lbLE metric a b || lbLE metric b a) = true := by
  unfold lbLE
  by_cases hm : metric = "fastestApproval"
  · simp only [if_pos hm]
    rcases le_total (a.value.getD 0) (b.value.getD 0) with h | h <;> simp [h]
  · simp only [if_neg hm]
    rcases le_total (a.value.getD 0) (b.value.getD 0) with h | h <;> simp [h]

/-- C6: for every valid metric, `getLeaderboard` succeeds with at most `limit`
entries, every entry comes from a tracked user whose value for the metric is
non-null and strictly positive (and carries exactly that value), and the list
is sorted ascending for `fastestApproval` and descending otherwise. -/
theorem getLeaderboard_spec (tracker : StatsMap) (metric : String) (limit : Nat)
    (h : metric ∈ validMetrics) :
    ∃ l, getLeaderboard tracker metric limit = Except.ok l ∧
      l.length ≤ limit ∧
      (∀ e ∈ l, ∃ v, e.value = some v ∧ 0 < v ∧ (e.userId, e.stats) ∈ tracker ∧
        metricValue e.stats metric = some v) ∧
      l.Pairwise (fun a b =>
        if metric = "fastestApproval" then a.value.getD 0 ≤ b.value.getD 0
        else b.value.getD 0 ≤ a.value.getD 0) := by
  have hc : validMetrics.contains metric = true := by simpa using h
  refine ⟨((((tracker.map fun p =>
      ({ userId := p.1, value := metricValue p.2 metric, stats := p.2 } : LBEntry)).filter
      lbKeep).mergeSort (lbLE metric)).take limit), ?_, ?_, ?_, ?_⟩
  · simp only [getLeaderboard, hc, Bool.not_true, Bool.false_eq_true, if_false]
  · rw [List.length_take]
    exact min_le_left _ _
  · intro e he
    have he1 : e ∈ ((tracker.map fun p =>
        ({ userId := p.1, value := metricValue p.2 metric, stats := p.2 } : LBEntry)).filter
        lbKeep).mergeSort (lbLE metric) := List.take_subset _ _ he
    have he2 : e ∈ (tracker.map fun p =>
        ({ userId := p.1, value := metricValue p.2 metric, stats := p.2 } : LBEntry)).filter
        lbKeep := ((List.mergeSort_perm _ _).mem_iff).mp he1
    obtain ⟨hmem, hkeep⟩ := List.mem_filter.mp he2
    obtain ⟨p, hp, rfl⟩ := List.mem_map.mp hmem
    cases hv : metricValue p.2 metric with
    | none => rw [lbKeep, hv] at hkeep; simp at hkeep
    | some v =>
      refine ⟨v, by simp [hv], ?_, by simpa using hp, by simp [hv]⟩
      rw [lbKeep, hv] at hkeep
      simpa using hkeep
  · have hs := @List.sorted_mergeSort _ (lbLE metric) (lbLE_trans metric)
      (lbLE_total metric)
      ((tracker.map fun p =>
        ({ userId := p.1, value := metricValue p.2 metric, stats := p.2 } : LBEntry)).filter
        lbKeep)
    have hs2 := List.Pairwise.sublist (List.take_sublist limit _) hs
    refine hs2.imp ?_
    intro a b hab
    unfold lbLE at hab
    by_cases hm : metric = "fastestApproval"
    · rw [if_pos hm] at hab ⊢
      exact of_decide_eq_true hab
    · rw [if_neg hm] at hab ⊢
      exact of_decide_eq_true hab

/-- Witness for C6: the `fastestApproval` leaderboard over a concrete
three-user collection with limit 2. -/
theorem getLeaderboard_spec_witness :
    "fastestApproval" ∈ validMetrics ∧
    (∃ l, getLeaderboard trackerW "fastestApproval" 2 = Except.ok l ∧
      l.length ≤ 2 ∧
      (∀ e ∈ l, ∃ v, e.value = some v ∧ 0 < v ∧ (e.userId, e.stats) ∈ trackerW ∧
        metricValue e.stats "fastestApproval" = some v) ∧
      l.Pairwise (fun a b =>
        if "fastestApproval" = "fastestApproval" then a.value.getD 0 ≤ b.value.getD 0
        else b.value.getD 0 ≤ a.value.getD 0)) :=
  ⟨by decide, getLeaderboard_spec trackerW "fastestApproval" 2 (by decide)⟩

/-- C10: any metric name outside the six valid ones makes `getLeaderboard`
raise the `Invalid metric` error, for every state of the collection. -/
theorem getLeaderboard_invalid_metric (tracker : StatsMap) (metric : String)
    (limit : Nat) (h : metric ∉ validMetrics) :
    getLeaderboard tracker metric limit = Except.error ("Invalid metric: " ++ metric) := by
  have hc : validMetrics.contains metric = false := by simpa using h
  simp only [getLeaderboard, hc, Bool.not_false, if_true]

/-- Witness for C10 at a concrete invalid metric name. -/
theorem getLeaderboard_invalid_metric_witness :
    getLeaderboard trackerW "commentCount" 10
      = Except.error ("Invalid metric: " ++ "commentCount") :=
  getLeaderboard_invalid_metric trackerW "commentCount" 10 (by decide)

-- ======================= C7: character and digit lemmas ======================= --

theorem digitChar_mem (d : Nat) : digitChar d ∈ digitTable := by
  unfold digitChar
  by_cases h : d < 10
  · interval_cases d <;> decide
  · rw [List.getD_eq_default]
    · decide
    · simp only [digitTable]
      simp only [List.length_cons, List.length_nil]
      omega

theorem digit_char_props (c : Char) (hc : c ∈ digitTable) :
    c.isDigit = true ∧ jsonWsChar c = false ∧ c ≠ 'n' ∧ c ≠ 't' ∧ c ≠ 'f' ∧
    c ≠ '"' ∧ c ≠ '[' ∧ c ≠ '\x7b' ∧ c ≠ '-' ∧ c ≠ ']' ∧ c ≠ '\x7d' ∧ c ≠ ',' := by
  fin_cases hc <;> decide

theorem digitChar_val (d : Nat) (h : d < 10) : (digitChar d).toNat - 48 = d := by
  interval_cases d <;> decide

theorem hexVal_hexDigitChar (d : Nat) (h : d < 16) : hexVal (hexDigitChar d) = some d := by
  interval_cases d <;> decide

theorem natToChars_mem (n : Nat) : ∀ c ∈ natToChars n, c ∈ digitTable := by
  induction n using Nat.strong_induction_on with
  | _ n ih =>
    rw [natToChars]
    split
    · intro c hc
      rw [List.mem_singleton] at hc
      subst hc
      exact digitChar_mem _
    · rename_i h
      intro c hc
      rw [List.mem_append] at hc
      rcases hc with hc | hc
      · exact ih (n / 10) (Nat.div_lt_self (by omega) (by omega)) c hc
      · rw [List.mem_singleton] at hc
        subst hc
        exact digitChar_mem _

theorem natToChars_ne_nil (n : Nat) : natToChars n ≠ [] := by
  rw [natToChars]
  split
  · simp
  · simp

theorem digitsToNat_append (l : List Char) (c : Char) :
    digitsToNat (l ++ [c]) = 10 * digitsToNat l + (c.toNat - 48) := by
  simp only [digitsToNat, List.foldl_append, List.foldl_cons, List.foldl_nil]
  ring

theorem digitsToNat_natToChars (n : Nat) : digitsToNat (natToChars n) = n := by
  induction n using Nat.strong_induction_on with
  | _ n ih =>
    rw [natToChars]
    split
    · rename_i h
      have hv := digitChar_val n h
      simp only [digitsToNat, List.foldl_cons, List.foldl_nil]
      omega
    · rename_i h
      rw [digitsToNat_append, ih (n / 10) (Nat.div_lt_self (by omega) (by omega))]
      have hv := digitChar_val (n % 10) (Nat.mod_lt _ (by omega))
      omega

theorem takeWhile_append_all {p : Char → Bool} {l rest : List Char}
    (hl : ∀ c ∈ l, p c = true)
    (hr : ∀ c, rest.head? = some c → p c = false) :
    (l ++ rest).takeWhile p = l ∧ (l ++ rest).dropWhile p = rest := by
  induction l with
  | nil =>
    simp only [List.nil_append]
    cases rest with
    | nil => exact ⟨rfl, rfl⟩
    | cons c t =>
      have hc := hr c rfl
      simp [List.takeWhile_cons, List.dropWhile_cons, hc]
  | cons c t ih =>
    have hc := hl c (List.mem_cons_self _ _)
    have ih2 := ih fun x hx => hl x (List.mem_cons_of_mem _ hx)
    simp [List.takeWhile_cons, List.dropWhile_cons, hc, ih2.1, ih2.2]

theorem parseNat_round (n : Nat) (rest : List Char)
    (hr : ∀ c, rest.head? = some c → c.isDigit = false) :
    parseNat (natToChars n ++ rest) = some (n, rest) := by
  have hall : ∀ c ∈ natToChars n, Char.isDigit c = true := fun c hc =>
    (digit_char_props c (natToChars_mem n c hc)).1
  obtain ⟨ht, hd⟩ := takeWhile_append_all hall hr
  simp [parseNat, ht, hd, List.isEmpty_iff, natToChars_ne_nil n, digitsToNat_natToChars n]

-- ======================= C7: string literal round trip ======================= --

theorem escChar_parses (c : Char) (rest : List Char) :
    parseStrChars (escChar c ++ rest)
      = (parseStrChars rest).map fun p => (c :: p.1, p.2) := by
  unfold escChar
  by_cases h1 : c = '"'
  · subst h1
    rw [if_pos rfl]
    show parseStrChars ('\\' :: '"' :: rest) = _
    rw [parseStrChars.eq_def]
    simp only [Char.reduceEq, reduceIte]
  · rw [if_neg h1]
    by_cases h2 : c = '\\'
    · subst h2
      rw [if_pos rfl]
      show parseStrChars ('\\' :: '\\' :: rest) = _
      rw [parseStrChars.eq_def]
      simp only [Char.reduceEq, reduceIte]
    · rw [if_neg h2]
      by_cases h3 : c = '\x08'
      · subst h3
        rw [if_pos rfl]
        show parseStrChars ('\\' :: 'b' :: rest) = _
        rw [parseStrChars.eq_def]
        simp only [Char.reduceEq, reduceIte]
      · rw [if_neg h3]
        by_cases h4 : c = '\x0c'
        · subst h4
          rw [if_pos rfl]
          show parseStrChars ('\\' :: 'f' :: rest) = _
          rw [parseStrChars.eq_def]
          simp only [Char.reduceEq, reduceIte]
        · rw [if_neg h4]
          by_cases h5 : c = '\n'
          · subst h5
            rw [if_pos rfl]
            show parseStrChars ('\\' :: 'n' :: rest) = _
            rw [parseStrChars.eq_def]
            simp only [Char.reduceEq, reduceIte]
          · rw [if_neg h5]
            by_cases h6 : c = '\r'
            · subst h6
              rw [if_pos rfl]
              show parseStrChars ('\\' :: 'r' :: rest) = _
              rw [parseStrChars.eq_def]
              simp only [Char.reduceEq, reduceIte]
            · rw [if_neg h6]
              by_cases h7 : c = '\t'
              · subst h7
                rw [if_pos rfl]
                show parseStrChars ('\\' :: 't' :: rest) = _
                rw [parseStrChars.eq_def]
                simp only [Char.reduceEq, reduceIte]
              · rw [if_neg h7]
                by_cases h8 : c.toNat < 32
                · rw [if_pos h8]
                  have hv1 : hexVal (hexDigitChar (c.toNat / 16)) = some (c.toNat / 16) :=
                    hexVal_hexDigitChar _ (by omega)
                  have hv2 : hexVal (hexDigitChar (c.toNat % 16)) = some (c.toNat % 16) :=
                    hexVal_hexDigitChar _ (by omega)
                  have hz : hexVal '0' = some 0 := by decide
                  show parseStrChars ('\\' :: 'u' :: '0' :: '0' ::
                    hexDigitChar (c.toNat / 16) :: hexDigitChar (c.toNat % 16) :: rest) = _
                  rw [parseStrChars.eq_def]
                  simp only [Char.reduceEq, reduceIte, hz, hv1, hv2]
                  have hnum : ((0 * 16 + 0) * 16 + c.toNat / 16) * 16 + c.toNat % 16
                      = c.toNat := by omega
                  simp only [hnum, Char.ofNat_toNat]
                · rw [if_neg h8]
                  show parseStrChars (c :: rest) = _
                  rw [parseStrChars.eq_def]
                  simp only [if_neg h1, if_neg h2]

theorem parseStr_round (cs rest : List Char) :
    parseStrChars (escBody cs ++ '"' :: rest) = some (cs, rest) := by
  induction cs with
  | nil =>
    simp only [escBody, List.nil_append]
    rw [parseStrChars.eq_def]
    simp only [Char.reduceEq, reduceIte]
  | cons c t ih =>
    simp only [escBody, List.append_assoc]
    rw [escChar_parses, ih]
    rfl

-- ======================= C7: head and whitespace lemmas ======================= --

theorem skipWs_cons {c : Char} (l : List Char) (h : jsonWsChar c = false) :
    skipWs (c :: l) = c :: l := by
  simp [skipWs, List.dropWhile_cons, h]

theorem isPrefixOf_append_self (p l : List Char) : p.isPrefixOf (p ++ l) = true := by
  induction p with
  | nil => simp [List.isPrefixOf]
  | cons c t ih => simp [List.isPrefixOf, ih]

theorem stringify_head (v : JVal) :
    ∃ c r, stringifyVal v = c :: r ∧ jsonWsChar c = false ∧ c ≠ ']' ∧ c ≠ '\x7d' := by
  cases v with
  | jnull => exact ⟨'n', _, rfl, rfl, by decide, by decide⟩
  | jbool b =>
    cases b
    · exact ⟨'f', _, rfl, rfl, by decide, by decide⟩
    · exact ⟨'t', _, rfl, rfl, by decide, by decide⟩
  | jnum n =>
    show ∃ c r, intToChars n = c :: r ∧ _
    unfold intToChars
    split
    · exact ⟨'-', _, rfl, rfl, by decide, by decide⟩
    · rcases hh : natToChars n.toNat with _ | ⟨c, r⟩
      · exact absurd hh (natToChars_ne_nil _)
      · have hc : c ∈ digitTable :=
          natToChars_mem _ c (by rw [hh]; exact List.mem_cons_self _ _)
        obtain ⟨_, hws, _, _, _, _, _, _, _, hrb, hbb, _⟩ := digit_char_props c hc
        exact ⟨c, r, rfl, hws, hrb, hbb⟩
  | jstr s => exact ⟨'"', _, rfl, rfl, by decide, by decide⟩
  | jarr l =>
    cases l
    · exact ⟨'[', _, rfl, rfl, by decide, by decide⟩
    · exact ⟨'[', _, rfl, rfl, by decide, by decide⟩
  | jobj l =>
    cases l with
    | nil => exact ⟨'\x7b', _, rfl, rfl, by decide, by decide⟩
    | cons p t =>
      obtain ⟨k, v⟩ := p
      exact ⟨'\x7b', _, rfl, rfl, by decide, by decide⟩

-- ======================= C7: parser inverts the serializer ======================= --

theorem parseRound (fuel : Nat) :
    (∀ v rest, (stringifyVal v).length < fuel →
        (∀ c, rest.head? = some c → c.isDigit = false) →
        parseVal fuel (stringifyVal v ++ rest) = some (v, rest)) ∧
    (∀ v t rest, (stringifyVal v).length + (stringifyElems t).length + 1 < fuel →
        parseElemsTail fuel (stringifyVal v ++ (stringifyElems t ++ ']' :: rest))
          = some (v :: t, rest)) ∧
    (∀ k v t rest, (stringifyVal v).length + (stringifyMembers t).length + 1 < fuel →
        parseMembersTail fuel
            (strLit k ++ ':' :: (stringifyVal v ++ (stringifyMembers t ++ '\x7d' :: rest)))
          = some ((k, v) :: t, rest)) := by
  induction fuel using Nat.strong_induction_on with
  | _ fuel ih =>
    refine ⟨?_, ?_, ?_⟩
    · -- parseVal inverts stringifyVal
      intro v rest hlen hrest
      cases fuel with
      | zero => omega
      | succ f =>
        cases v with
        | jnull =>
          simp only [stringifyVal, List.cons_append, List.nil_append]
          rw [parseVal.eq_def]
          dsimp only
          rw [skipWs_cons _ (by decide)]
          simp [List.isPrefixOf, List.drop, Char.reduceEq]
        | jbool b =>
          cases b
          · simp only [stringifyVal, List.cons_append, List.nil_append]
            rw [parseVal.eq_def]
            dsimp only
            rw [skipWs_cons _ (by decide)]
            simp [List.isPrefixOf, List.drop, Char.reduceEq]
          · simp only [stringifyVal, List.cons_append, List.nil_append]
            rw [parseVal.eq_def]
            dsimp only
            rw [skipWs_cons _ (by decide)]
            simp [List.isPrefixOf, List.drop, Char.reduceEq]
        | jnum n =>
          simp only [stringifyVal, intToChars]
          by_cases hn : n < 0
          · rw [if_pos hn]
            simp only [List.cons_append]
            rw [parseVal.eq_def]
            dsimp only
            rw [skipWs_cons _ (by decide)]
            simp only [Char.reduceEq, reduceIte]
            rw [parseNat_round _ _ hrest]
            simp only [Option.map_some']
            have hval : -((n.natAbs : Nat) : Int) = n := by omega
            rw [hval]
          · rw [if_neg hn]
            rcases hh : natToChars n.toNat with _ | ⟨c, rr⟩
            · exact absurd hh (natToChars_ne_nil _)
            · have hc : c ∈ digitTable :=
                natToChars_mem _ c (by rw [hh]; exact List.mem_cons_self _ _)
              obtain ⟨hdig, hws, hcn, hct, hcf, hcq, hclb, hcob, hcm, _, _, _⟩ :=
                digit_char_props c hc
              simp only [List.cons_append]
              rw [parseVal.eq_def]
              dsimp only
              rw [skipWs_cons _ hws]
              dsimp only
              rw [if_neg hcn, if_neg hct, if_neg hcf, if_neg hcq, if_neg hclb,
                if_neg hcob, if_neg hcm, if_pos hdig]
              rw [show c :: (rr ++ rest) = natToChars n.toNat ++ rest from by
                rw [hh, List.cons_append]]
              rw [parseNat_round _ _ hrest]
              simp only [Option.map_some']
              have hval : ((n.toNat : Nat) : Int) = n := Int.toNat_of_nonneg (by omega)
              rw [hval]
        | jstr s =>
          simp only [stringifyVal, strLit, List.cons_append, List.nil_append,
            List.append_assoc]
          rw [parseVal.eq_def]
          dsimp only
          rw [skipWs_cons _ (by decide)]
          simp only [Char.reduceEq, reduceIte]
          rw [parseStr_round]
          have hmk : String.mk s.data = s := by cases s; rfl
          simp [hmk]
        | jarr l =>
          cases l with
          | nil =>
            simp only [stringifyVal, List.cons_append, List.nil_append]
            rw [parseVal.eq_def]
            dsimp only
            rw [skipWs_cons _ (by decide)]
            simp only [Char.reduceEq, reduceIte]
            rw [skipWs_cons _ (by decide)]
            rfl
          | cons v t =>
            obtain ⟨c0, r0, hsv, hws0, hnb, _⟩ := stringify_head v
            simp only [stringifyVal, List.length_cons, List.length_append,
              List.length_nil] at hlen
            simp only [stringifyVal, List.cons_append, List.nil_append,
              List.append_assoc]
            rw [parseVal.eq_def]
            dsimp only
            rw [skipWs_cons _ (by decide)]
            simp only [Char.reduceEq, reduceIte]
            rw [hsv]
            simp only [List.cons_append]
            rw [skipWs_cons _ hws0]
            split
            · rename_i heq
              injection heq with h1 _
              exact absurd h1 hnb
            · rw [show c0 :: (r0 ++ (stringifyElems t ++ ']' :: rest))
                  = stringifyVal v ++ (stringifyElems t ++ ']' :: rest) from by
                rw [hsv, List.cons_append]]
              rw [(ih f (by omega)).2.1 v t rest (by omega)]
              rfl
        | jobj l =>
          cases l with
          | nil =>
            simp only [stringifyVal, List.cons_append, List.nil_append]
            rw [parseVal.eq_def]
            dsimp only
            rw [skipWs_cons _ (by decide)]
            simp only [Char.reduceEq, reduceIte]
            rw [skipWs_cons _ (by decide)]
            rfl
          | cons p t =>
            obtain ⟨k, v⟩ := p
            simp only [stringifyVal, strLit, List.length_cons, List.length_append,
              List.length_nil] at hlen
            simp only [stringifyVal, strLit, List.cons_append, List.nil_append,
              List.append_assoc]
            rw [parseVal.eq_def]
            dsimp only
            rw [skipWs_cons _ (by decide)]
            simp only [Char.reduceEq, reduceIte]
            rw [skipWs_cons _ (by decide)]
            split
            · rename_i heq
              injection heq with h1 _
              exact absurd h1 (by decide)
            · rw [show ('"' :: (escBody k.data ++ ('"' :: ':' ::
                    (stringifyVal v ++ (stringifyMembers t ++ '\x7d' :: rest)))))
                  = strLit k ++ ':' ::
                    (stringifyVal v ++ (stringifyMembers t ++ '\x7d' :: rest)) from by
                  simp [strLit, List.cons_append, List.append_assoc]]
              rw [(ih f (by omega)).2.2 k v t rest (by omega)]
              rfl
    · -- parseElemsTail inverts stringifyElems
      intro v t rest hlen
      cases fuel with
      | zero => omega
      | succ f =>
        have hndh : ∀ c, (stringifyElems t ++ ']' :: rest).head? = some c →
            c.isDigit = false := by
          cases t with
          | nil =>
            intro c hc
            simp only [stringifyElems, List.nil_append, List.head?_cons] at hc
            injection hc with h
            subst h
            decide
          | cons v2 t2 =>
            intro c hc
            simp only [stringifyElems, List.cons_append, List.head?_cons] at hc
            injection hc with h
            subst h
            decide
        rw [parseElemsTail.eq_def]
        dsimp only
        rw [(ih f (by omega)).1 v (stringifyElems t ++ ']' :: rest) (by omega) hndh]
        cases t with
        | nil =>
          simp only [stringifyElems, List.nil_append]
          rw [skipWs_cons _ (by decide)]
          rfl
        | cons v2 t2 =>
          simp only [stringifyElems, List.length_cons, List.length_append] at hlen
          simp only [stringifyElems, List.cons_append, List.append_assoc]
          rw [skipWs_cons _ (by decide)]
          split
          · rename_i r2 heq
            injection heq with _ h2
            subst h2
            rw [(ih f (by omega)).2.1 v2 t2 rest (by omega)]
          · rename_i heq
            injection heq with h1 _
            exact absurd h1 (by decide)
          · rename_i hne1 hne2
            exact absurd rfl (hne1 _)
    · -- parseMembersTail inverts stringifyMembers
      intro k v t rest hlen
      cases fuel with
      | zero => omega
      | succ f =>
        have hndh : ∀ c, (stringifyMembers t ++ '\x7d' :: rest).head? = some c →
            c.isDigit = false := by
          cases t with
          | nil =>
            intro c hc
            simp only [stringifyMembers, List.nil_append, List.head?_cons] at hc
            injection hc with h
            subst h
            decide
          | cons p2 t2 =>
            obtain ⟨k2, v2⟩ := p2
            intro c hc
            simp only [stringifyMembers, List.cons_append, List.head?_cons] at hc
            injection hc with h
            subst h
            decide
        have hmk : String.mk k.data = k := by cases k; rfl
        rw [parseMembersTail.eq_def]
        dsimp only
        simp only [strLit, List.cons_append, List.nil_append, List.append_assoc]
        rw [parseStr_round]
        dsimp only
        rw [skipWs_cons _ (by decide)]
        split
        · rename_i r2 heq
          injection heq with _ h2
          subst h2
          rw [(ih f (by omega)).1 v (stringifyMembers t ++ '\x7d' :: rest) (by omega) hndh]
          dsimp only
          cases t with
          | nil =>
            simp only [stringifyMembers, List.nil_append]
            rw [skipWs_cons _ (by decide)]
            split
            · rename_i heq2
              injection heq2 with h1 _
              exact absurd h1 (by decide)
            · rename_i r4 heq2
              injection heq2 with _ h4
              subst h4
              rw [hmk]
            · rename_i hne1 hne2
              exact absurd rfl (hne2 _)
          | cons p2 t2 =>
            obtain ⟨k2, v2⟩ := p2
            simp only [stringifyMembers, strLit, List.length_cons, List.length_append,
              List.length_nil] at hlen
            simp only [stringifyMembers, List.cons_append, List.append_assoc]
            rw [skipWs_cons _ (by decide)]
            split
            · rename_i r4 heq2
              injection heq2 with _ h4
              subst h4
              rw [show skipWs (strLit k2 ++ ':' ::
                    (stringifyVal v2 ++ (stringifyMembers t2 ++ '\x7d' :: rest)))
                  = strLit k2 ++ ':' ::
                    (stringifyVal v2 ++ (stringifyMembers t2 ++ '\x7d' :: rest)) from by
                simp only [strLit, List.cons_append, List.nil_append, List.append_assoc]
                rw [skipWs_cons _ (by decide)]]
              rw [(ih f (by omega)).2.2 k2 v2 t2 rest (by omega)]
            · rename_i heq2
              injection heq2 with h1 _
              exact absurd h1 (by decide)
            · rename_i hne1 hne2
              exact absurd rfl (hne1 _)
        · rename_i hne
          exact absurd rfl (hne _)

-- ======================= C7: record and collection round trip ======================= --

theorem parse_stringify (v : JVal) :
    parseVal ((stringifyVal v).length + 1) (stringifyVal v) = some (v, []) := by
  have h := (parseRound ((stringifyVal v).length + 1)).1 v [] (by omega)
    (by intro c hc; simp at hc)
  simpa using h

theorem decStrs_map (l : List String) : decStrs (l.map JVal.jstr) = some l := by
  induction l with
  | nil => rfl
  | cons s t ih => simp [decStrs, decStr, ih]

theorem decTimesList_map (l : List (String × String)) :
    decTimesList (l.map fun p => (p.1, JVal.jstr p.2)) = some l := by
  induction l with
  | nil => rfl
  | cons p t ih =>
    obtain ⟨k, v⟩ := p
    simp [decTimesList, decStr, ih]

theorem decOptStr_enc (o : Option String) : decOptStr (encOptStr o) = some o := by
  cases o <;> rfl

theorem decOptInt_enc (o : Option Int) : decOptInt (encOptInt o) = some o := by
  cases o <;> rfl

theorem prOfJson_prToJson (pr : PR) : prOfJson (prToJson pr) = some pr := by
  simp [prOfJson, prToJson, mapGet, encStrList, encTimes, decStr, decBool,
    decStrList, decTimes, decStrs_map, decTimesList_map, decOptStr_enc,
    decOptInt_enc, Option.bind]

theorem mapSet_append_new {α : Type} (acc : List (String × α)) (k : String) (v : α)
    (h : ∀ p ∈ acc, p.1 ≠ k) : mapSet acc k v = acc ++ [(k, v)] := by
  induction acc with
  | nil => rfl
  | cons q t ih =>
    obtain ⟨k', v'⟩ := q
    have hk : k' ≠ k := h (k', v') (List.mem_cons_self _ _)
    simp only [mapSet, if_neg hk, List.cons_append, List.cons.injEq, true_and]
    exact ih fun p hp => h p (List.mem_cons_of_mem _ hp)

theorem jsFromEntries_go {α : Type} : ∀ (l acc : List (String × α)),
    (l.map fun p => p.1).Nodup →
    (∀ p ∈ acc, ∀ q ∈ l, p.1 ≠ q.1) →
    l.foldl (fun a p => mapSet a p.1 p.2) acc = acc ++ l := by
  intro l
  induction l with
  | nil =>
    intro acc _ _
    simp
  | cons x t ih =>
    intro acc hnd hdisj
    rw [List.foldl_cons]
    rw [mapSet_append_new acc x.1 x.2 fun p hp => hdisj p hp x (List.mem_cons_self _ _)]
    rw [List.map_cons] at hnd
    have hnd2 := List.nodup_cons.mp hnd
    rw [ih (acc ++ [x]) hnd2.2 ?_]
    · simp
    · intro p hp q hq
      rcases List.mem_append.mp hp with hp | hp
      · exact hdisj p hp q (List.mem_cons_of_mem _ hq)
      · rw [List.mem_singleton] at hp
        subst hp
        intro heq
        exact hnd2.1 (List.mem_map.mpr ⟨q, hq, heq.symm⟩)

theorem jsFromEntries_id {α : Type} (l : List (String × α))
    (h : (l.map fun p => p.1).Nodup) : jsFromEntries l = l := by
  unfold jsFromEntries
  rw [jsFromEntries_go l [] h (by intro p hp; simp at hp)]
  simp

theorem decodeEntries_map (m : Reg) :
    decodeEntries (m.map fun p => (p.1, prToJson p.2)) = some m := by
  induction m with
  | nil => rfl
  | cons p t ih =>
    obtain ⟨k, pr⟩ := p
    simp [decodeEntries, prOfJson_prToJson, ih]

/-- C7: saving any tracked-review collection with unique thread keys and
reloading it yields field-for-field equal records, including empty reviewer
and commenter collections and null timestamps. -/
theorem save_load_roundtrip (m : Reg) (h : (m.map fun p => p.1).Nodup) :
    loadPRData (savePRData m) = some m := by
  have hdata : ∀ l : List Char, (String.mk l).data = l := fun l => rfl
  unfold savePRData loadPRData parseJson
  rw [jsFromEntries_id _ (by simpa [List.map_map, Function.comp] using h)]
  simp only [hdata]
  rw [parse_stringify (JVal.jobj (m.map fun p => (p.1, prToJson p.2)))]
  dsimp only [skipWs, List.dropWhile]
  exact decodeEntries_map m

/-- Witness for C7 on a concrete three-record collection. -/
theorem save_load_roundtrip_witness :
    (roundW.map fun p => p.1).Nodup ∧ loadPRData (savePRData roundW) = some roundW :=
  ⟨by decide, save_load_roundtrip roundW (by decide)⟩
